import Mathlib

/-!
# GQL: a shallow embedding of the GitQL query front end and engine

This file embeds, in Lean 4, the parts of the GitQL sources relevant to the
verified properties below:

* `src/crates/gitql-core/src/values/date.rs` — the `DateValue` operations
  (`add_op`, `sub_op`, and the quantified group comparison operators);
* `src/crates/gitql-engine/src/engine.rs` — the `evaluate` driver that walks
  the clauses of a parsed query in canonical order and reduces groups;
* `src/crates/gitql-parser/src/parser.rs` — the `parse_gql` entry point, the
  `SELECT` clause loop (duplicate-clause checks, the `LIMIT n, m` sugar,
  `HAVING`-requires-`GROUP BY`), `parse_limit_statement`,
  `parse_offset_statement`, and `classify_hidden_selection`.

Rust machine integers (`i64` timestamps) are modelled as `Int`; `usize`
clause counts as `Nat`.  Fallible Rust code returning `Result<_, _>` is
modelled with `Except`; places where the Rust code can panic (`unwrap` on an
empty vector, out-of-bounds indexing) are modelled with an outer `Option`
where `none` is the panic.  Code external to the surveyed sources (the
per-statement executor, the expression sub-parsers, the type checker) is
abstracted as an explicit function parameter: the theorems below quantify
over every possible behaviour of those parameters.
-/

namespace GQL

/-! ## Value and type algebra (spec §3.2, §3.3)

`gitql-core/src/values/base.rs` is not part of the surveyed sources, so the
closed value sum is modelled from the spec: `Null, Bool, Int(i64),
Float(f64), Text, Date(ts), Time(ts), DateTime(ts), Array(elem_type, values)`.
The accessors `as_int`, `as_date`, `as_array`, `is_array_of` mirror the
downcasting accessors of the value trait that `date.rs` uses. -/

inductive DataType : Type
  | any
  | null
  | boolean
  | integer
  | float
  | text
  | date
  | time
  | dateTime
  | array (elem : DataType)
deriving DecidableEq, Repr

/-- `DataType::is_date` -/
def DataType.is_date : DataType → Bool
  | .date => true
  | _ => false

inductive Value : Type
  | null
  | bool (b : Bool)
  | int (i : Int)
  | float (f : Float)
  | text (s : String)
  | date (timestamp : Int)
  | time (timestamp : Int)
  | dateTime (timestamp : Int)
  | array (elem : DataType) (values : List Value)

/-- `Value::as_int`: the value downcast to an integer, when it is one. -/
def Value.as_int : Value → Option Int
  | .int i => some i
  | _ => none

/-- `Value::as_date`: the value downcast to a date timestamp, when it is one. -/
def Value.as_date : Value → Option Int
  | .date ts => some ts
  | _ => none

/-- `Value::as_array`: the element list of an array value. -/
def Value.as_array : Value → Option (List Value)
  | .array _ vs => some vs
  | _ => none

/-- `Value::is_array_of(predicate)`: the value is an array whose declared
element type satisfies the predicate. -/
def Value.is_array_of (p : DataType → Bool) : Value → Bool
  | .array elem _ => p elem
  | _ => false

/-- `GroupComparisonOperator` from `gitql-ast/src/operator.rs`: the
quantifier of a group comparison. -/
inductive GroupComparisonOperator : Type
  | all
  | any
deriving DecidableEq, Repr

/-! ## `DateValue` operations (`gitql-core/src/values/date.rs`)

The timestamps and day counts are `i64`.  The unannotated Rust arithmetic
of `add_op`/`sub_op` is two's-complement `i64` arithmetic: in release
profile it wraps on overflow (in debug profile it panics; the wrapping
release semantics is modelled).  `wrap_i64` reduces an unbounded integer
into `[-2^63, 2^63)` modulo `2^64`, and each source-level `*`, `+`, `-`
is one wrapped operation. -/

/-- Two's-complement reduction of an integer into the `i64` range. -/
def wrap_i64 (n : Int) : Int := (n + 2 ^ 63) % 2 ^ 64 - 2 ^ 63

/-- `i64` multiplication (release profile: wraps on overflow). -/
def i64_mul (a b : Int) : Int := wrap_i64 (a * b)

/-- `i64` addition (release profile: wraps on overflow). -/
def i64_add (a b : Int) : Int := wrap_i64 (a + b)

/-- `i64` subtraction (release profile: wraps on overflow). -/
def i64_sub (a b : Int) : Int := wrap_i64 (a - b)

namespace DateValue

/-- `DateValue::add_op` (date.rs lines 53–60): an integer right-hand side is
a number of whole days, each of `24 * 60 * 60` seconds, added to the
timestamp.  `days * 24 * 60 * 60` and `timestamp + days_to_timestamp` are
unchecked `i64` operations, each modelled wrapped.  Any other right-hand
side is an error. -/
def add_op (timestamp : Int) (other : Value) : Except String Value :=
  match other.as_int with
  | some days =>
      let days_to_timestamp := i64_mul (i64_mul (i64_mul days 24) 60) 60
      .ok (.date (i64_add timestamp days_to_timestamp))
  | none => .error "Unexpected type to perform `+` with"

/-- `DateValue::sub_op` (date.rs lines 62–69): like `add_op` with the day
seconds subtracted (again unchecked `i64` arithmetic, modelled wrapped). -/
def sub_op (timestamp : Int) (other : Value) : Except String Value :=
  match other.as_int with
  | some days =>
      let days_to_timestamp := i64_mul (i64_mul (i64_mul days 24) 60) 60
      .ok (.date (i64_sub timestamp days_to_timestamp))
  | none => .error "Unexpected type to perform `-` with"

/-- The counting loop shared by every `group_*_op` of `DateValue`: walk the
array elements, count those whose timestamp satisfies `cmp` against the
receiver, and break at the first match when the quantifier is `Any`.
`element.as_date().unwrap()` panics on a non-date element, modelled by
`none`. -/
def group_matches_count (cmp : Int → Int → Bool) (timestamp : Int)
    (group_op : GroupComparisonOperator) :
    List Value → Nat → Option Nat
  | [], matches_count => some matches_count
  | element :: rest, matches_count =>
      match element.as_date with
      | none => none
      | some element_ts =>
          if cmp timestamp element_ts then
            if group_op = .any then some (matches_count + 1)
            else group_matches_count cmp timestamp group_op rest (matches_count + 1)
          else group_matches_count cmp timestamp group_op rest matches_count

/-- The result the group loop turns into a boolean (date.rs lines 277–280):
`All` requires every element to have matched, `Any` at least one. -/
def group_result (group_op : GroupComparisonOperator)
    (matches_count : Nat) (len : Nat) : Bool :=
  match group_op with
  | .all => matches_count = len
  | .any => matches_count > 0

/-- `DateValue::group_lte_op` (date.rs lines 260–285).  NOTE: the comparison
used inside the loop is the strict `self.timestamp < element` (line 269),
not `≤`. -/
def group_lte_op (timestamp : Int) (other : Value)
    (group_op : GroupComparisonOperator) : Option (Except String Value) :=
  if other.is_array_of (fun element_type => element_type.is_date) then
    match other.as_array with
    | none => none
    | some elements =>
        match group_matches_count (fun a b => a < b) timestamp group_op elements 0 with
        | none => none
        | some matches_count =>
            some (.ok (.bool (group_result group_op matches_count elements.length)))
  else some (.error "Unexpected type to perform `<=` with")

end DateValue

/-! ## The execution engine (`gitql-engine/src/engine.rs`)

The engine is generic in the repository type (`git2::Repository`), in the
row type (`GQLObject`) and in the clause payloads (`Box<dyn Statement>`),
and it drives the external `execute_statement` (from `engine_executor.rs`,
outside the surveyed sources), which is therefore a function parameter
`exec`.  In-place mutation of the `groups` accumulator is modelled by state
passing; a call of `exec` also records a trace event `(command, repo)` so
that the order and multiplicity of clause executions is observable. -/

namespace Engine

/-- `GQL_COMMANDS_IN_ORDER` (engine.rs lines 6–15). -/
def GQL_COMMANDS_IN_ORDER : List String :=
  ["select", "where", "group", "aggregation", "having", "order", "offset", "limit"]

/-- The engine-side `GQLQuery` (from `gitql_ast::statement`): the clause
map, the single-value flag and the hidden selections.  The `HashMap` keyed
by clause name is modelled as an association list with first-match lookup. -/
structure GQLQuery (Stmt : Type) : Type where
  statements : List (String × Stmt)
  select_aggregations_only : Bool
  hidden_selections : List String

/-- `EvaluationValues` (engine.rs lines 17–20). -/
structure EvaluationValues (Obj : Type) : Type where
  groups : List (List Obj)
  hidden_selections : List String
deriving DecidableEq, Repr

/-- The `"select"` arm of the command loop (engine.rs lines 34–42): run the
statement once per repository, threading the shared `groups` accumulator,
and return early on the first error.  The first component is the trace of
executions performed. -/
def selectPhase {Repo Obj Stmt : Type}
    (exec : Stmt → Repo → List (List Obj) → Except String (List (List Obj)))
    (statement : Stmt) :
    List Repo → List (List Obj) →
    List (String × Repo) × Except String (List (List Obj))
  | [], groups => ([], .ok groups)
  | repo :: rest, groups =>
      match exec statement repo groups with
      | .error e => ([("select", repo)], .error e)
      | .ok groups' =>
          let (trace, result) := selectPhase exec statement rest groups'
          (("select", repo) :: trace, result)

/-- The `for gql_command in GQL_COMMANDS_IN_ORDER` loop of `evaluate`
(engine.rs lines 30–52): commands absent from the statement map are
skipped, `"select"` fans out over all repositories, every other command
runs once against `first_repo`. -/
def commandsLoop {Repo Obj Stmt : Type}
    (exec : Stmt → Repo → List (List Obj) → Except String (List (List Obj)))
    (repos : List Repo) (first_repo : Repo)
    (statements_map : List (String × Stmt)) :
    List String → List (List Obj) →
    List (String × Repo) × Except String (List (List Obj))
  | [], groups => ([], .ok groups)
  | gql_command :: rest, groups =>
      match statements_map.lookup gql_command with
      | none => commandsLoop exec repos first_repo statements_map rest groups
      | some statement =>
          if gql_command = "select" then
            match selectPhase exec statement repos groups with
            | (trace, .error e) => (trace, .error e)
            | (trace, .ok groups') =>
                let (trace', result) :=
                  commandsLoop exec repos first_repo statements_map rest groups'
                (trace ++ trace', result)
          else
            match exec statement first_repo groups with
            | .error e => ([(gql_command, first_repo)], .error e)
            | .ok groups' =>
                let (trace', result) :=
                  commandsLoop exec repos first_repo statements_map rest groups'
                ((gql_command, first_repo) :: trace', result)

/-- The group-reduction epilogue of `evaluate` (engine.rs lines 54–68): with
more than one group each group longer than one row is drained to its first
row; with exactly one group the single group is drained to its first row
when the query selects only aggregations; otherwise groups are unchanged.
The single-group branch runs `groups[0].drain(1..)` **unguarded**:
`Vec::drain(1..)` panics when the vector is empty (the range start 1
exceeds the length 0), modelled by `none`. -/
def reduceGroups {Obj : Type} (groups : List (List Obj))
    (select_aggregations_only : Bool) : Option (List (List Obj)) :=
  if groups.length > 1 then
    some (groups.map (fun group => if group.length > 1 then group.take 1 else group))
  else if groups.length = 1 && select_aggregations_only then
    match groups with
    | group :: rest =>
        if group.length < 1 then none else some (group.take 1 :: rest)
    | [] => none
  else
    some groups

/-- `evaluate` (engine.rs lines 22–75) together with its execution trace.
The first component is the list of statement executions performed (a
later panic does not undo them); the second is the result:
`repos.first().unwrap()` panics on an empty repository list, and the group
reduction panics on a single empty group with the single-value flag set,
both modelled by `none`. -/
def evaluateWithTrace {Repo Obj Stmt : Type}
    (exec : Stmt → Repo → List (List Obj) → Except String (List (List Obj)))
    (repos : List Repo) (query : GQLQuery Stmt) :
    List (String × Repo) × Option (Except String (EvaluationValues Obj)) :=
  match repos.head? with
  | none => ([], none)
  | some first_repo =>
      let groups : List (List Obj) := []
      let statements_map := query.statements
      match commandsLoop exec repos first_repo statements_map
          GQL_COMMANDS_IN_ORDER groups with
      | (trace, .error e) => (trace, some (.error e))
      | (trace, .ok groups') =>
          match reduceGroups groups' query.select_aggregations_only with
          | none => (trace, none)
          | some reduced =>
              (trace, some (.ok
                { groups := reduced
                  hidden_selections := query.hidden_selections }))

/-- `evaluate` proper: the trace projected away. -/
def evaluate {Repo Obj Stmt : Type}
    (exec : Stmt → Repo → List (List Obj) → Except String (List (List Obj)))
    (repos : List Repo) (query : GQLQuery Stmt) :
    Option (Except String (EvaluationValues Obj)) :=
  (evaluateWithTrace exec repos query).2

end Engine

/-! ## The parser (`gitql-parser/src/parser.rs`)

Expressions, the five expression-bearing clause sub-parsers
(`parse_select_statement`, `parse_where_statement`,
`parse_group_by_statement`, `parse_having_statement`,
`parse_order_by_statement`) and the type checker are abstracted: the
expression type is a type parameter and the sub-parsers are function
parameters.  The clause loop of `parse_select_query`, the
`parse_limit_statement` / `parse_offset_statement` helpers, the
`LIMIT n, m` sugar, `classify_hidden_selection` and the `parse_gql` entry
shell are embedded from the source. -/

namespace Parser

/-- `tokenizer::Location`: a half-open byte range.  (`end` is a Lean
keyword, hence `end_pos`.) -/
structure Location : Type where
  start : Nat
  end_pos : Nat
deriving DecidableEq, Repr

/-- The token kinds `parse_gql` and the `parse_select_query` clause loop
dispatch on.  All remaining kinds of the Rust enumeration are collapsed
into `Other`, which every embedded dispatch treats uniformly (they all fall
into the default arm). -/
inductive TokenKind : Type
  | Do
  | Set
  | Select
  | Describe
  | Show
  | Where
  | Group
  | Having
  | Limit
  | Offset
  | Order
  | Not
  | Comma
  | Integer
  | Semicolon
  | RightParen
  | LeftParen
  | By
  | Other (id : Nat)
deriving DecidableEq, Repr

/-- `tokenizer::Token`. -/
structure Token : Type where
  kind : TokenKind
  literal : String
  location : Location
deriving DecidableEq, Repr

/-- `diagnostic::Diagnostic` with its builder methods. -/
structure Diagnostic : Type where
  message : String
  location : Option Location := none
  notes : List String := []
  helps : List String := []
deriving DecidableEq, Repr

def Diagnostic.error (message : String) : Diagnostic := { message }

def Diagnostic.add_note (d : Diagnostic) (note : String) : Diagnostic :=
  { d with notes := d.notes ++ [note] }

def Diagnostic.add_help (d : Diagnostic) (help : String) : Diagnostic :=
  { d with helps := d.helps ++ [help] }

def Diagnostic.with_location (d : Diagnostic) (l : Location) : Diagnostic :=
  { d with location := some l }

/-- `Diagnostic::as_boxed` only boxes the value; the box is invisible in
the embedding. -/
def Diagnostic.as_boxed (d : Diagnostic) : Diagnostic := d

/-- `get_safe_location` (parser.rs lines 2798–2803).  On an empty token
list the Rust code would panic at `tokens[tokens.len() - 1]`; no embedded
call site reaches that case, and a dummy location stands in for it. -/
def get_safe_location (tokens : List Token) (position : Nat) : Location :=
  match tokens.get? position with
  | some t => t.location
  | none =>
      match tokens.getLast? with
      | some t => t.location
      | none => ⟨0, 0⟩

/-- The error kinds of Rust's `usize` parsing distinguished by the parser. -/
inductive IntErrorKind : Type
  | empty
  | invalidDigit
  | posOverflow
deriving DecidableEq, Repr

def USIZE_MAX : Nat := 2 ^ 64 - 1

/-- The decimal-digit accumulation loop of Rust `usize::from_str`:
consume digits left to right, failing on any non-digit character. -/
def digitsToNat : List Char → Nat → Option Nat
  | [], acc => some acc
  | c :: rest, acc =>
      if c.isDigit then digitsToNat rest (acc * 10 + (c.toNat - 48))
      else none

/-- Model of `str.parse::<usize>()` on the literal of an `Integer` token:
a decimal numeral within `0..=usize::MAX` parses, a numeral above
`usize::MAX` reports `PosOverflow`, anything else is invalid. -/
def parseUsize (s : String) : Except IntErrorKind Nat :=
  if s.data.isEmpty then .error .empty
  else
    match digitsToNat s.data 0 with
    | none => .error .invalidDigit
    | some v => if v ≤ USIZE_MAX then .ok v else .error .posOverflow

/-- The statement nodes stored in the clause map.  Expression-bearing
payloads are the opaque `Expr`; `LimitStatement` and `OffsetStatement`
carry their `usize` count. -/
inductive Statement (Expr : Type) : Type
  | select (payload : Expr)
  | whereStmt (condition : Expr)
  | groupBy (values : Expr)
  | having (condition : Expr)
  | orderBy (payload : Expr)
  | limit (count : Nat)
  | offset (count : Nat)
  | aggregation (aggregations : List (String × Expr))

/-- The `HashMap<&str, Box<dyn Statement>>` clause map (and the
`HashMap<String, Vec<String>>` of `classify_hidden_selection`) modelled as
an association list with unique keys: `insert` replaces an existing key in
place or appends a fresh one. -/
def hmInsert {β : Type} : List (String × β) → String → β → List (String × β)
  | [], k, v => [(k, v)]
  | (k', v') :: rest, k, v =>
      if k' = k then (k, v) :: rest else (k', v') :: hmInsert rest k v

def hmContains {β : Type} (m : List (String × β)) (k : String) : Bool :=
  (m.lookup k).isSome

/-- `map.get_mut(k).unwrap().push(x)` on a map of lists: append `x` to the
list stored under `k`.  On a missing key the Rust call panics; the embedded
call sites only push to keys that are present, and the model leaves the map
unchanged there. -/
def hmPush (m : List (String × List String)) (k : String) (x : String) :
    List (String × List String) :=
  match m with
  | [] => []
  | (k', v) :: rest =>
      if k' = k then (k', v ++ [x]) :: rest else (k', v) :: hmPush rest k x

/-- `parse_limit_statement` (parser.rs lines 942–982). -/
def parse_limit_statement {Expr : Type} (tokens : List Token) (position : Nat) :
    Except Diagnostic (Statement Expr × Nat) :=
  let position := position + 1
  match tokens.get? position with
  | none =>
      .error ((Diagnostic.error "Expect number after `LIMIT` keyword").with_location
        (get_safe_location tokens (position - 1)))
  | some t =>
      if t.kind ≠ .Integer then
        .error ((Diagnostic.error "Expect number after `LIMIT` keyword").with_location
          (get_safe_location tokens (position - 1)))
      else
        match parseUsize t.literal with
        | .error e =>
            if e = .posOverflow then
              .error ((((Diagnostic.error "`LIMIT` integer value is too large").add_help
                "Try to use smaller value").add_note
                "`LIMIT` value must be between 0 and 18446744073709551615").with_location
                (get_safe_location tokens position))
            else
              .error (((Diagnostic.error "`LIMIT` integer value is invalid").add_help
                "`LIMIT` value must be between 0 and 18446744073709551615").with_location
                (get_safe_location tokens position))
        | .ok count => .ok (.limit count, position + 1)

/-- `parse_offset_statement` (parser.rs lines 984–1023). -/
def parse_offset_statement {Expr : Type} (tokens : List Token) (position : Nat) :
    Except Diagnostic (Statement Expr × Nat) :=
  let position := position + 1
  match tokens.get? position with
  | none =>
      .error ((Diagnostic.error "Expect number after `OFFSET` keyword").with_location
        (get_safe_location tokens (position - 1)))
  | some t =>
      if t.kind ≠ .Integer then
        .error ((Diagnostic.error "Expect number after `OFFSET` keyword").with_location
          (get_safe_location tokens (position - 1)))
      else
        match parseUsize t.literal with
        | .error e =>
            if e = .posOverflow then
              .error ((((Diagnostic.error "`OFFSET` integer value is too large").add_help
                "Try to use smaller value").add_note
                "`OFFSET` value must be between 0 and 18446744073709551615").with_location
                (get_safe_location tokens position))
            else
              .error (((Diagnostic.error "`OFFSET` integer value is invalid").add_help
                "`OFFSET` value must be between 0 and 18446744073709551615").with_location
                (get_safe_location tokens position))
        | .ok count => .ok (.offset count, position + 1)

/-- `context::ParserContext`: the mutable state threaded through the
descent (`gitql-parser/src/context.rs`, outside the surveyed sources; the
fields are the ones `parse_select_query` reads and writes). -/
structure ParserContext (Expr : Type) : Type where
  aggregations : List (String × Expr) := []
  selected_fields : List String := []
  hidden_selections : List String := []
  selected_tables : List String := []
  projection_names : List String := []
  projection_locations : List Location := []
  name_alias_table : List (String × String) := []
  has_select_statement : Bool := false
  is_single_value_query : Bool := false
  has_group_by_statement : Bool := false

/-- The type of the abstracted expression-bearing clause sub-parsers: from
the context and the token cursor to a diagnostic, or the mutated context,
the parsed statement and the new cursor. -/
def SubParser (Expr : Type) : Type :=
  ParserContext Expr → List Token → Nat →
    Except Diagnostic (ParserContext Expr × Statement Expr × Nat)

/-- The five sub-parsers `parse_select_query` delegates to. -/
structure SubParsers (Expr : Type) : Type where
  parse_select_statement : SubParser Expr
  parse_where_statement : SubParser Expr
  parse_group_by_statement : SubParser Expr
  parse_having_statement : SubParser Expr
  parse_order_by_statement : SubParser Expr

/-- The `while *position < len` clause loop of `parse_select_query`
(parser.rs lines 212–374).  The loop needs no fuel in Rust because every
iteration that neither breaks nor errors inserts a clause key that, once
present, makes the same arm error; the Lean recursion nevertheless takes a
fuel argument (exhaustion yields a diagnostic) and every theorem below
holds for every fuel. -/
def selectLoop {Expr : Type} (ps : SubParsers Expr) (tokens : List Token) :
    Nat → ParserContext Expr → List (String × Statement Expr) → Nat →
    Except Diagnostic (ParserContext Expr × List (String × Statement Expr) × Nat)
  | 0, _, _, _ => .error (Diagnostic.error "loop fuel exhausted")
  | fuel + 1, context, statements, position =>
      match tokens.get? position with
      | none => .ok (context, statements, position)
      | some token =>
          match token.kind with
          | .Select =>
              if hmContains statements "select" then
                .error ((((Diagnostic.error "You already used `SELECT` statement").add_note
                  "Can't use more than one `SELECT` statement in the same query").with_location
                  token.location).as_boxed)
              else
                match ps.parse_select_statement context tokens position with
                | .error d => .error d
                | .ok (context', statement, position') =>
                    let statements' := hmInsert statements "select" statement
                    let context' :=
                      { context' with
                        is_single_value_query := !context'.aggregations.isEmpty
                        has_select_statement := true }
                    selectLoop ps tokens fuel context' statements' position'
          | .Where =>
              if hmContains statements "where" then
                .error ((((Diagnostic.error "You already used `WHERE` statement").add_note
                  "Can't use more than one `WHERE` statement in the same query").with_location
                  token.location).as_boxed)
              else
                match ps.parse_where_statement context tokens position with
                | .error d => .error d
                | .ok (context', statement, position') =>
                    selectLoop ps tokens fuel context'
                      (hmInsert statements "where" statement) position'
          | .Group =>
              if hmContains statements "group" then
                .error ((((Diagnostic.error "`You already used `GROUP BY` statement").add_note
                  "Can't use more than one `GROUP BY` statement in the same query").with_location
                  token.location).as_boxed)
              else
                match ps.parse_group_by_statement context tokens position with
                | .error d => .error d
                | .ok (context', statement, position') =>
                    selectLoop ps tokens fuel context'
                      (hmInsert statements "group" statement) position'
          | .Having =>
              if hmContains statements "having" then
                .error ((((Diagnostic.error "You already used `HAVING` statement").add_note
                  "Can't use more than one `HAVING` statement in the same query").with_location
                  token.location).as_boxed)
              else if !hmContains statements "group" then
                .error ((((Diagnostic.error
                  "`HAVING` must be used after `GROUP BY` statement").add_note
                  "`HAVING` statement must be used in a query that has `GROUP BY` statement").with_location
                  token.location).as_boxed)
              else
                match ps.parse_having_statement context tokens position with
                | .error d => .error d
                | .ok (context', statement, position') =>
                    selectLoop ps tokens fuel context'
                      (hmInsert statements "having" statement) position'
          | .Limit =>
              if hmContains statements "limit" then
                .error ((((Diagnostic.error "You already used `LIMIT` statement").add_note
                  "Can't use more than one `LIMIT` statement in the same query").with_location
                  token.location).as_boxed)
              else
                match parse_limit_statement tokens position with
                | .error d => .error d
                | .ok (statement, position') =>
                    let statements' := hmInsert statements "limit" statement
                    -- Check for Limit and Offset shortcut `LIMIT n, m`
                    match tokens.get? position' with
                    | some t' =>
                        if t'.kind = .Comma then
                          if hmContains statements' "offset" then
                            .error ((((Diagnostic.error
                              "You already used `OFFSET` statement").add_note
                              "Can't use more than one `OFFSET` statement in the same query").with_location
                              token.location).as_boxed)
                          else
                            -- Consume Comma
                            let position'' := position' + 1
                            match tokens.get? position'' with
                            | none =>
                                .error (((((Diagnostic.error
                                  "Expects `OFFSET` amount as Integer value after `,`").add_help
                                  "Try to add constant Integer after comma").add_note
                                  "`OFFSET` value must be a constant Integer").with_location
                                  token.location).as_boxed)
                            | some t'' =>
                                if t''.kind ≠ .Integer then
                                  .error (((((Diagnostic.error
                                    "Expects `OFFSET` amount as Integer value after `,`").add_help
                                    "Try to add constant Integer after comma").add_note
                                    "`OFFSET` value must be a constant Integer").with_location
                                    token.location).as_boxed)
                                else
                                  match parseUsize t''.literal with
                                  | .error e =>
                                      if e = .posOverflow then
                                        .error (((((Diagnostic.error
                                          "`OFFSET` integer value is too large").add_help
                                          "Try to use smaller value").add_note
                                          "`OFFSET` value must be between 0 and 18446744073709551615").with_location
                                          token.location).as_boxed)
                                      else
                                        .error ((((Diagnostic.error
                                          "`OFFSET` integer value is invalid").add_help
                                          "`OFFSET` value must be between 0 and 18446744073709551615").with_location
                                          token.location).as_boxed)
                                  | .ok count =>
                                      selectLoop ps tokens fuel context
                                        (hmInsert statements' "offset" (.offset count))
                                        (position'' + 1)
                        else selectLoop ps tokens fuel context statements' position'
                    | none => selectLoop ps tokens fuel context statements' position'
          | .Offset =>
              if hmContains statements "offset" then
                .error ((((Diagnostic.error "You already used `OFFSET` statement").add_note
                  "Can't use more than one `OFFSET` statement in the same query").with_location
                  token.location).as_boxed)
              else
                match parse_offset_statement tokens position with
                | .error d => .error d
                | .ok (statement, position') =>
                    selectLoop ps tokens fuel context
                      (hmInsert statements "offset" statement) position'
          | .Order =>
              if hmContains statements "order" then
                .error ((((Diagnostic.error "You already used `ORDER BY` statement").add_note
                  "Can't use more than one `ORDER BY` statement in the same query").with_location
                  token.location).as_boxed)
              else
                match ps.parse_order_by_statement context tokens position with
                | .error d => .error d
                | .ok (context', statement, position') =>
                    selectLoop ps tokens fuel context'
                      (hmInsert statements "order" statement) position'
          | .Not =>
              .error (((((Diagnostic.error
                "Expects `REGEXP` or `IN` expression after this `NOT` keyword").add_help
                "Try to use `REGEXP` or `IN` expression after NOT keyword").add_help
                "Try to remove `NOT` keyword").add_note
                "Expect to see `NOT` then `IN` keyword with a list of values").with_location
                (get_safe_location tokens position))
          | _ => .ok (context, statements, position)

/-- `classify_hidden_selection`, inner table loop (parser.rs lines
422–442): find the first selected table whose schema columns contain the
hidden selection and whose per-table list does not already hold it, and
push there; if no table resolves it and the map is non-empty, push it under
the first selected table as a generated column.  `tables` is the full
selected-table list (for the `tables[0]` fallback), the recursion walks its
remaining suffix.  The `get_mut(..).unwrap()` calls cannot fail because
every table of `tables` is a key of the map. -/
def classifyLoop (schema : String → List String) (hidden_selection : String)
    (tables : List String) :
    List String → List (String × List String) → List (String × List String)
  | [], m =>
      match tables with
      | [] => m
      | first_table :: _ =>
          if m.isEmpty then m else hmPush m first_table hidden_selection
  | table :: rest, m =>
      let table_columns := schema table
      if table_columns.contains hidden_selection then
        let hidden_selection_for_table := (m.lookup table).getD []
        if hidden_selection_for_table.contains hidden_selection then
          classifyLoop schema hidden_selection tables rest m
        else hmPush m table hidden_selection
      else classifyLoop schema hidden_selection tables rest m

/-- `classify_hidden_selection` (parser.rs lines 411–446). -/
def classify_hidden_selection (schema : String → List String)
    (tables : List String) (hidden_selections : List String) :
    List (String × List String) :=
  let table_hidden_selections :=
    tables.foldl (fun m table => hmInsert m table []) []
  hidden_selections.foldl
    (fun m hidden_selection => classifyLoop schema hidden_selection tables tables m)
    table_hidden_selections

/-- The table the spec attributes a hidden selection to (spec §4.2.3): the
first table in `selected_tables` whose schema columns contain the column,
otherwise the first selected table. -/
def first_owning_table (schema : String → List String)
    (tables : List String) (hidden_selection : String) : String :=
  match tables.find? (fun table => (schema table).contains hidden_selection) with
  | some table => table
  | none => tables.headD ""

/-- The parser-side `GQLQuery` (from `gitql_ast::statement` as used by
parser.rs lines 402–408). -/
structure GQLQuery (Expr : Type) : Type where
  statements : List (String × Statement Expr)
  has_aggregation_function : Bool
  has_group_by_statement : Bool
  hidden_selections : List (String × List String)
  alias_table : List (String × String)

/-- The `Query` sum type. -/
inductive Query (Expr : Type) : Type
  | select (q : GQLQuery Expr)
  | doQuery (expression : Expr)
  | globalVariableDecl (name : String) (value : Expr)
  | describe (table_name : String)
  | showTables

/-- `parse_select_query` (parser.rs lines 202–409): run the clause loop
from a default context and an empty clause map, then append the
`aggregation` clause when aggregations were captured, drop hidden
selections that are also selected fields, run the (abstracted) projection
type check, and classify the remaining hidden selections per table. -/
def parse_select_query {Expr : Type} (schema : String → List String)
    (ps : SubParsers Expr)
    (type_check_projection_symbols :
      List String → List String → List Location → Except Diagnostic Unit)
    (fuel : Nat) (tokens : List Token) (position : Nat) :
    Except Diagnostic (Query Expr × Nat) :=
  match selectLoop ps tokens fuel {} [] position with
  | .error d => .error d
  | .ok (context, statements, position') =>
      let statements :=
        if context.aggregations.isEmpty then statements
        else hmInsert statements "aggregation" (.aggregation context.aggregations)
      let hidden_selections :=
        context.hidden_selections.filter (fun n => !context.selected_fields.contains n)
      match type_check_projection_symbols context.selected_tables
          context.projection_names context.projection_locations with
      | .error d => .error d
      | .ok _ =>
          let hidden_selection_per_table :=
            classify_hidden_selection schema context.selected_tables hidden_selections
          .ok (.select
            { statements := statements
              has_aggregation_function := context.is_single_value_query
              has_group_by_statement := context.has_group_by_statement
              hidden_selections := hidden_selection_per_table
              alias_table := context.name_alias_table }, position')

/-- `un_expected_statement_error` (parser.rs lines 2625–2641). -/
def un_expected_statement_error (tokens : List Token) (position : Nat) : Diagnostic :=
  let location := get_safe_location tokens position
  if location.start = 0 then
    (((Diagnostic.error "Unexpected statement").add_help
      "Expect query to start with `SELECT` or `SET` keyword").with_location location).as_boxed
  else ((Diagnostic.error "Unexpected statement").with_location location).as_boxed

/-- `un_expected_content_after_correct_statement` (parser.rs lines
2725–2746). -/
def un_expected_content_after_correct_statement (statement_name : String)
    (tokens : List Token) (position : Nat) : Diagnostic :=
  let error_message :=
    "Unexpected content after the end of `" ++ statement_name.toUpper ++ "` statement"
  let location_of_extra_content : Location :=
    { start := (get_safe_location tokens position).start
      end_pos :=
        match tokens.getLast? with
        | some t => t.location.end_pos
        | none => 0 }
  (((Diagnostic.error error_message).add_help
    "Try to check if statement keyword is missing").add_help
    "Try remove un expected extra content").with_location location_of_extra_content

/-- The per-statement-kind parsers `parse_gql` dispatches to.  Each takes
the tokens and the cursor and returns the parsed query and the new cursor,
or a diagnostic. -/
structure QueryParsers (Expr : Type) : Type where
  parse_do_query : List Token → Nat → Except Diagnostic (Query Expr × Nat)
  parse_set_query : List Token → Nat → Except Diagnostic (Query Expr × Nat)
  parse_select_query : List Token → Nat → Except Diagnostic (Query Expr × Nat)
  parse_describe_query : List Token → Nat → Except Diagnostic (Query Expr × Nat)
  parse_show_query : List Token → Nat → Except Diagnostic (Query Expr × Nat)

/-- `parse_gql` (parser.rs lines 40–69).  The very first action,
`let first_token = &tokens[position];` with `position = 0`, indexes the
token vector without a bounds check, so an empty token list panics: the
panic is the `none` result.  After dispatch, an optional trailing `;` is
consumed, and remaining content after a successful statement is an error. -/
def parse_gql {Expr : Type} (qp : QueryParsers Expr) (tokens : List Token) :
    Option (Except Diagnostic (Query Expr)) :=
  let position := 0
  match tokens.get? position with
  | none => none
  | some first_token =>
      let query_result : Except Diagnostic (Query Expr × Nat) :=
        match first_token.kind with
        | .Do => qp.parse_do_query tokens position
        | .Set => qp.parse_set_query tokens position
        | .Select => qp.parse_select_query tokens position
        | .Describe => qp.parse_describe_query tokens position
        | .Show => qp.parse_show_query tokens position
        | _ => .error (un_expected_statement_error tokens position)
      match query_result with
      | .error d => some (.error d)
      | .ok (query, position₁) =>
          -- Consume optional `;` at the end of valid statement
          let position₂ :=
            match tokens.get? position₁ with
            | some last_token =>
                if last_token.kind = .Semicolon then position₁ + 1 else position₁
            | none => position₁
          -- Check for unexpected content after valid statement
          if position₂ < tokens.length then
            some (.error (un_expected_content_after_correct_statement
              first_token.literal tokens position₂))
          else some (.ok query)

/-- `parse_group_expression` (parser.rs lines 2487–2503), with
`parse_expression` abstracted.  After the inner expression is parsed,
`tokens[*position]` is read with no bounds check (line 2495, unlike every
other site, which guards with `*position >= tokens.len()` or uses
`get_safe_location`), so input that ends right after the inner expression
panics: the panic is the `none` result. -/
def parse_group_expression {Expr : Type}
    (parse_expression :
      ParserContext Expr → List Token → Nat →
        Except Diagnostic (ParserContext Expr × Expr × Nat))
    (context : ParserContext Expr) (tokens : List Token) (position : Nat) :
    Option (Except Diagnostic (ParserContext Expr × Expr × Nat)) :=
  let position := position + 1
  match parse_expression context tokens position with
  | .error d => some (.error d)
  | .ok (context', expression, position') =>
      match tokens.get? position' with
      | none => none
      | some t =>
          if t.kind ≠ .RightParen then
            some (.error ((((Diagnostic.error
              "Expect `)` to end group expression").with_location
              (get_safe_location tokens position')).add_help
              "Try to add ')' at the end of group expression").as_boxed))
          else some (.ok (context', expression, position' + 1))

end Parser

/-! ## Theorems -/

/-! ### Date value operations -/

/-- The counting loop of the date group operators, `All` quantifier: no
early break, the count grows by the number of matching elements. -/
theorem group_matches_count_all (cmp : Int → Int → Bool) (ts : Int)
    (tss : List Int) (n : Nat) :
    DateValue.group_matches_count cmp ts .all (tss.map Value.date) n =
      some (n + tss.countP (fun e => cmp ts e)) := by
  induction tss generalizing n with
  | nil => simp [DateValue.group_matches_count]
  | cons e rest ih =>
      by_cases h : cmp ts e
      · simp [DateValue.group_matches_count, Value.as_date, h, ih, List.countP_cons,
          Nat.add_assoc, Nat.add_comm 1]
      · simp [DateValue.group_matches_count, Value.as_date, h, ih, List.countP_cons]

/-- The counting loop of the date group operators, `Any` quantifier:
breaks at the first match, so the count grows by one exactly when some
element matches. -/
theorem group_matches_count_any (cmp : Int → Int → Bool) (ts : Int)
    (tss : List Int) (n : Nat) :
    DateValue.group_matches_count cmp ts .any (tss.map Value.date) n =
      some (if tss.any (fun e => cmp ts e) then n + 1 else n) := by
  induction tss generalizing n with
  | nil => simp [DateValue.group_matches_count]
  | cons e rest ih =>
      by_cases h : cmp ts e
      · simp [DateValue.group_matches_count, Value.as_date, h]
      · simp [DateValue.group_matches_count, Value.as_date, h, ih]

/-- A full match count is the same thing as every element matching. -/
theorem decide_countP_eq_length {α : Type} (p : α → Bool) (l : List α) :
    decide (l.countP p = l.length) = l.all p := by
  by_cases h : l.countP p = l.length
  · rw [decide_eq_true h]
    exact (List.all_eq_true.mpr (fun a ha => List.countP_eq_length.mp h a ha)).symm
  · rw [decide_eq_false h]
    symm
    rw [Bool.eq_false_iff]
    intro hall
    exact h (List.countP_eq_length.mpr (fun a ha => List.all_eq_true.mp hall a ha))

/-- C7: `DateValue::group_lte_op` on an array of dates returns
`Ok(Bool(b))` where the element comparison is the strict `<` (not `≤`):
with `All`, `b` holds iff the receiver timestamp is `<` every element;
with `Any`, iff it is `<` some element (false on the empty array); a
right-hand side that is not an array of dates is an `Err`. -/
theorem group_lte_op_is_strict_lt (ts : Int) (tss : List Int)
    (op : GroupComparisonOperator) :
    (DateValue.group_lte_op ts (.array .date (tss.map Value.date)) op =
      some (.ok (.bool (match op with
        | .all => tss.all (fun e => ts < e)
        | .any => tss.any (fun e => ts < e))))) ∧
    (∀ v : Value, v.is_array_of (fun t => t.is_date) = false →
      DateValue.group_lte_op ts v op =
        some (.error "Unexpected type to perform `<=` with")) := by
  constructor
  · match op with
    | .all =>
        simp only [DateValue.group_lte_op, Value.is_array_of, DataType.is_date,
          Value.as_array, group_matches_count_all, if_true]
        simp only [Nat.zero_add, DateValue.group_result, List.length_map]
        rw [decide_countP_eq_length _ tss]
    | .any =>
        simp only [DateValue.group_lte_op, Value.is_array_of, DataType.is_date,
          Value.as_array, group_matches_count_any, if_true]
        simp only [DateValue.group_result]
        by_cases h : tss.any (fun e => ts < e) <;> simp [h]
  · intro v hv
    unfold DateValue.group_lte_op
    rw [hv]
    simp

/-- Witness for C7 at concrete inputs: `1970-01-01 ≤ANY [+1 day]` is true
under the strict reading, and an integer right-hand side errors. -/
theorem group_lte_op_is_strict_lt_witness :
    (DateValue.group_lte_op 0 (.array .date [Value.date 86400]) .any =
      some (.ok (.bool true))) ∧
    (DateValue.group_lte_op 0 (.int 3) .any =
      some (.error "Unexpected type to perform `<=` with")) := by
  refine ⟨?_, ?_⟩
  · have h := (group_lte_op_is_strict_lt 0 [86400] .any).1
    simpa using h
  · exact (group_lte_op_is_strict_lt 0 [] .any).2 (.int 3) rfl

/-- `wrap_i64` does not change the residue modulo `2^64`. -/
theorem wrap_i64_emod (a : Int) : wrap_i64 a % 2 ^ 64 = a % 2 ^ 64 := by
  unfold wrap_i64
  conv_lhs => rw [Int.sub_emod, Int.emod_emod_of_dvd _ dvd_rfl, ← Int.sub_emod]
  simp

/-- `wrap_i64` only depends on the residue modulo `2^64`. -/
theorem wrap_i64_congr {a b : Int} (h : a % 2 ^ 64 = b % 2 ^ 64) :
    wrap_i64 a = wrap_i64 b := by
  unfold wrap_i64
  congr 1
  rw [Int.add_emod, h, ← Int.add_emod]

/-- `wrap_i64` is the identity on the `i64` range. -/
theorem wrap_i64_eq_self {a : Int} (h1 : -(2 ^ 63) ≤ a) (h2 : a < 2 ^ 63) :
    wrap_i64 a = a := by
  unfold wrap_i64
  rw [Int.emod_eq_of_lt (by linarith) (by norm_num; linarith)]
  ring

/-- A wrapped left factor collapses into one wrapped product. -/
theorem i64_mul_wrap_left (a b : Int) :
    i64_mul (wrap_i64 a) b = wrap_i64 (a * b) := by
  unfold i64_mul
  apply wrap_i64_congr
  rw [Int.mul_emod, wrap_i64_emod, ← Int.mul_emod]

/-- A wrapped right summand collapses into one wrapped sum. -/
theorem i64_add_wrap_right (a b : Int) :
    i64_add a (wrap_i64 b) = wrap_i64 (a + b) := by
  unfold i64_add
  apply wrap_i64_congr
  rw [Int.add_emod, wrap_i64_emod, ← Int.add_emod]

/-- A wrapped subtrahend collapses into one wrapped difference. -/
theorem i64_sub_wrap_right (a b : Int) :
    i64_sub a (wrap_i64 b) = wrap_i64 (a - b) := by
  unfold i64_sub
  apply wrap_i64_congr
  rw [Int.sub_emod, wrap_i64_emod, ← Int.sub_emod]

/-- The day-seconds chain `days * 24 * 60 * 60` of `add_op`/`sub_op` is one
wrap of `days * 86400`. -/
theorem i64_days_to_timestamp (days : Int) :
    i64_mul (i64_mul (i64_mul days 24) 60) 60 = wrap_i64 (days * 86400) := by
  show i64_mul (i64_mul (wrap_i64 (days * 24)) 60) 60 = _
  rw [i64_mul_wrap_left, i64_mul_wrap_left]
  congr 1
  ring

/-- C8 counterexample: the claim's `t + n*86400` is not what the program
computes on every `i64` day count.  At `n = 2^60` (a legal `i64`) the
product `n * 86400` is a multiple of `2^64`, so the wrapped `i64`
arithmetic of `add_op` yields timestamp `0`, not `2^60 * 86400`. -/
theorem add_op_wraps_on_overflow_counterexample :
    DateValue.add_op 0 (.int (2 ^ 60)) = .ok (.date 0) ∧
    (0 : Int) ≠ 2 ^ 60 * 86400 := by
  constructor
  · rfl
  · decide

/-- C8 (amended): `DateValue::add_op`/`sub_op` with an integer right-hand
side treat it as whole days of 86 400 seconds added to (resp. subtracted
from) the timestamp in wrapping `i64` arithmetic; whenever `n * 86400` and
the final sum (resp. difference) lie within the `i64` range the result is
exactly `t + n*86400` (resp. `t - n*86400`); any right-hand value that is
not an integer makes both return an `Err` (and, the receiver being taken
by shared reference, it is never mutated). -/
theorem add_op_sub_op_whole_days (t n : Int) :
    (DateValue.add_op t (.int n) =
        .ok (.date (wrap_i64 (t + n * 86400))) ∧
     DateValue.sub_op t (.int n) =
        .ok (.date (wrap_i64 (t - n * 86400)))) ∧
    ((-(2 ^ 63) ≤ t + n * 86400 → t + n * 86400 < 2 ^ 63 →
        DateValue.add_op t (.int n) = .ok (.date (t + n * 86400))) ∧
     (-(2 ^ 63) ≤ t - n * 86400 → t - n * 86400 < 2 ^ 63 →
        DateValue.sub_op t (.int n) = .ok (.date (t - n * 86400)))) ∧
    (∀ v : Value, v.as_int = none →
      DateValue.add_op t v = .error "Unexpected type to perform `+` with" ∧
      DateValue.sub_op t v = .error "Unexpected type to perform `-` with") := by
  have hadd : DateValue.add_op t (.int n) =
      .ok (.date (wrap_i64 (t + n * 86400))) := by
    show Except.ok (Value.date
      (i64_add t (i64_mul (i64_mul (i64_mul n 24) 60) 60))) = _
    rw [i64_days_to_timestamp, i64_add_wrap_right]
  have hsub : DateValue.sub_op t (.int n) =
      .ok (.date (wrap_i64 (t - n * 86400))) := by
    show Except.ok (Value.date
      (i64_sub t (i64_mul (i64_mul (i64_mul n 24) 60) 60))) = _
    rw [i64_days_to_timestamp, i64_sub_wrap_right]
  refine ⟨⟨hadd, hsub⟩, ⟨?_, ?_⟩, ?_⟩
  · intro hs1 hs2
    rw [hadd, wrap_i64_eq_self hs1 hs2]
  · intro hs1 hs2
    rw [hsub, wrap_i64_eq_self hs1 hs2]
  · intro v hv
    unfold DateValue.add_op DateValue.sub_op
    rw [hv]
    exact ⟨rfl, rfl⟩

/-- Witness for C8 at concrete inputs: `Date(100) + Int(2)` and
`Date(100) - Int(2)` (well within the `i64` range), and a text right-hand
side erroring. -/
theorem add_op_sub_op_whole_days_witness :
    (DateValue.add_op 100 (.int 2) = .ok (.date 172900) ∧
     DateValue.sub_op 100 (.int 2) = .ok (.date (-172700))) ∧
    (DateValue.add_op 100 (.text "x") = .error "Unexpected type to perform `+` with" ∧
     DateValue.sub_op 100 (.text "x") = .error "Unexpected type to perform `-` with") := by
  have h := add_op_sub_op_whole_days 100 2
  refine ⟨⟨?_, ?_⟩, h.2.2 (.text "x") rfl⟩
  · exact (h.2.1.1 (by norm_num) (by norm_num)).trans (by norm_num)
  · exact (h.2.1.2 (by norm_num) (by norm_num)).trans (by norm_num)

/-! ### The execution engine -/

/-- C10: `evaluate` unwraps `repos.first()` before touching any clause, so
with an empty repository list it panics (modelled `none`) for every query
and every executor behaviour, instead of returning an `Err`. -/
theorem evaluate_empty_repos_panics {Repo Obj Stmt : Type}
    (exec : Stmt → Repo → List (List Obj) → Except String (List (List Obj)))
    (query : Engine.GQLQuery Stmt) :
    Engine.evaluate exec ([] : List Repo) query = none := rfl

/-- C3 counterexample: with exactly one group that is **empty** and the
single-value flag set, the epilogue's unguarded `groups[0].drain(1..)`
panics (`Vec::drain(1..)` on an empty vector) — the groups are neither
reduced to a first row nor returned: `reduceGroups` is `none` there, and a
whole `evaluate` run reaching that state panics. -/
theorem reduce_single_empty_group_panics :
    Engine.reduceGroups ([[]] : List (List Unit)) true = none ∧
    Engine.evaluate
      (fun (_ : Unit) (_ : Unit) (_ : List (List Unit)) => Except.ok [[]])
      [()] ⟨[("select", ())], true, []⟩ = none := by
  exact ⟨rfl, rfl⟩

/-- C3 (amended): the group-reduction epilogue of `evaluate`: with more
than one group every group is cut to its first row; with exactly one group
and the single-value flag set, the single group is cut to its first row by
an unguarded `drain(1..)`, which panics when that group is empty;
otherwise the groups are returned unchanged. -/
theorem reduceGroups_characterization {Obj : Type} (groups : List (List Obj))
    (select_aggregations_only : Bool) :
    Engine.reduceGroups groups select_aggregations_only =
      (if 1 < groups.length then
        some (groups.map (fun group => group.take 1))
       else
        match groups, select_aggregations_only with
        | [group], true =>
            if group.isEmpty then none else some [group.take 1]
        | _, _ => some groups) := by
  have htake : ∀ group : List Obj,
      (if group.length > 1 then group.take 1 else group) = group.take 1 := by
    intro group
    match group with
    | [] => simp
    | [a] => simp
    | a :: b :: rest => simp
  unfold Engine.reduceGroups
  by_cases h1 : 1 < groups.length
  · simp only [gt_iff_lt, h1, if_true]
    simp [htake]
  · simp only [gt_iff_lt, h1, if_false]
    rcases groups with _ | ⟨group, rest⟩
    · simp
    · rcases rest with _ | ⟨g2, rest2⟩
      · cases select_aggregations_only with
        | true =>
            rcases group with _ | ⟨a, r⟩ <;> simp
        | false => simp
      · exfalso
        apply h1
        simp only [List.length_cons]
        omega

/-- The result (second component) of the `"select"` fan-out is a monadic
fold of the executor over the repositories, threading the one shared
accumulator. -/
theorem selectPhase_eq_foldlM {Repo Obj Stmt : Type}
    (exec : Stmt → Repo → List (List Obj) → Except String (List (List Obj)))
    (statement : Stmt) (repos : List Repo) (groups : List (List Obj)) :
    (Engine.selectPhase exec statement repos groups).2 =
      repos.foldlM (fun g r => exec statement r g) groups := by
  induction repos generalizing groups with
  | nil => rfl
  | cons r rest ih =>
      simp only [Engine.selectPhase, List.foldlM_cons]
      cases h : exec statement r groups with
      | error e => rfl
      | ok g' => simpa using ih g'

/-- When the executor always succeeds, the `"select"` fan-out executes the
statement once per repository, in repository order. -/
theorem selectPhase_trace_of_ok {Repo Obj Stmt : Type}
    (exec : Stmt → Repo → List (List Obj) → Except String (List (List Obj)))
    (hok : ∀ st r g, ∃ g', exec st r g = .ok g') (statement : Stmt) :
    ∀ (repos : List Repo) (groups : List (List Obj)), ∃ g',
      Engine.selectPhase exec statement repos groups =
        (repos.map (fun r => ("select", r)), .ok g') := by
  intro repos
  induction repos with
  | nil => exact fun groups => ⟨groups, rfl⟩
  | cons r rest ih =>
      intro groups
      obtain ⟨g1, h1⟩ := hok statement r groups
      obtain ⟨g2, h2⟩ := ih g1
      exact ⟨g2, by simp [Engine.selectPhase, h1, h2]⟩

/-- When the executor always succeeds, the command loop of `evaluate`
produces the trace prescribed by `GQL_COMMANDS_IN_ORDER`: commands absent
from the statement map are skipped, `"select"` runs once per repository,
every other present command runs exactly once, against `first_repo`. -/
theorem commandsLoop_trace_of_ok {Repo Obj Stmt : Type}
    (exec : Stmt → Repo → List (List Obj) → Except String (List (List Obj)))
    (hok : ∀ st r g, ∃ g', exec st r g = .ok g')
    (repos : List Repo) (first_repo : Repo)
    (statements_map : List (String × Stmt)) :
    ∀ (cmds : List String) (groups : List (List Obj)), ∃ g',
      Engine.commandsLoop exec repos first_repo statements_map cmds groups =
        ((cmds.filter (fun c => (statements_map.lookup c).isSome)).bind
          (fun c => if c = "select" then repos.map (fun r => (c, r))
                    else [(c, first_repo)]), .ok g') := by
  intro cmds
  induction cmds with
  | nil => exact fun groups => ⟨groups, rfl⟩
  | cons c rest ih =>
      intro groups
      cases hl : statements_map.lookup c with
      | none =>
          obtain ⟨g', h⟩ := ih groups
          refine ⟨g', ?_⟩
          simp only [Engine.commandsLoop, hl, h, List.filter_cons, Option.isSome_none]
          simp
      | some st =>
          by_cases hc : c = "select"
          · subst hc
            obtain ⟨g1, h1⟩ := selectPhase_trace_of_ok exec hok st repos groups
            obtain ⟨g2, h2⟩ := ih g1
            refine ⟨g2, ?_⟩
            simp only [Engine.commandsLoop, hl, if_pos rfl, h1, h2, List.filter_cons,
              Option.isSome_some]
            simp
          · obtain ⟨g1, h1⟩ := hok st first_repo groups
            obtain ⟨g2, h2⟩ := ih g1
            refine ⟨g2, ?_⟩
            simp only [Engine.commandsLoop, hl, if_neg hc, h1, h2, List.filter_cons,
              Option.isSome_some]
            simp [hc]

/-- C1: with a non-empty repository list and an executor that always
succeeds, the executions `evaluate` performs (its trace) are exactly the
clauses present in the statement map, in the canonical order `select,
where, group, aggregation, having, order, offset, limit` (absent clauses
skipped); `select` fans out over the repositories and every other present
clause is executed exactly once, against the first repository. -/
theorem evaluate_visits_clauses_in_canonical_order {Repo Obj Stmt : Type}
    (exec : Stmt → Repo → List (List Obj) → Except String (List (List Obj)))
    (hok : ∀ st r g, ∃ g', exec st r g = .ok g')
    (r0 : Repo) (rs : List Repo) (query : Engine.GQLQuery Stmt) :
    (Engine.evaluateWithTrace exec (r0 :: rs) query).1 =
      (Engine.GQL_COMMANDS_IN_ORDER.filter
          (fun c => (query.statements.lookup c).isSome)).bind
        (fun c => if c = "select" then (r0 :: rs).map (fun r => (c, r))
                  else [(c, r0)]) := by
  obtain ⟨g', h⟩ := commandsLoop_trace_of_ok exec hok (r0 :: rs) r0
    query.statements Engine.GQL_COMMANDS_IN_ORDER ([] : List (List Obj))
  unfold Engine.evaluateWithTrace
  simp only [List.head?, h]
  try cases Engine.reduceGroups g' query.select_aggregations_only <;> rfl

/-- Witness for C1: a query with `select` and `limit` clauses over one
repository, with an executor that leaves the accumulator unchanged, is
traced as one `select` execution followed by one `limit` execution. -/
theorem evaluate_visits_clauses_in_canonical_order_witness :
    (Engine.evaluateWithTrace
        (fun (_ : Unit) (_ : Unit) (g : List (List Unit)) => Except.ok g) [()]
        ⟨[("select", ()), ("limit", ())], false, []⟩).1 =
      [("select", ()), ("limit", ())] := by
  have h := evaluate_visits_clauses_in_canonical_order
    (fun (_ : Unit) (_ : Unit) (g : List (List Unit)) => Except.ok g)
    (fun _ _ g => ⟨g, rfl⟩) () []
    ⟨[("select", ()), ("limit", ())], false, []⟩
  rw [h]
  rfl

/-- C2 counterexample: the shared `groups` accumulator starts as
`Vec::new()`, i.e. with **no** groups, not as a single empty group: a
`select` execution that appends nothing yields an output of zero groups,
whereas a single initial empty group would survive to the output (the
single-group reduction not applying, the flag being false). -/
theorem evaluate_initial_accumulator_counterexample :
    (Engine.evaluate
        (fun (_ : Unit) (_ : Unit) (groups : List (List Unit)) =>
          Except.ok groups) [()]
        ⟨[("select", ())], false, []⟩ =
      some (.ok ⟨[], []⟩)) ∧
    ((⟨[], []⟩ : Engine.EvaluationValues Unit) ≠ ⟨[[]], []⟩) := by
  exact ⟨rfl, by decide⟩

/-- The command loop skips every command absent from the statement map. -/
theorem commandsLoop_skip {Repo Obj Stmt : Type}
    (exec : Stmt → Repo → List (List Obj) → Except String (List (List Obj)))
    (repos : List Repo) (first_repo : Repo)
    (statements_map : List (String × Stmt)) :
    ∀ (cmds : List String) (groups : List (List Obj)),
      (∀ c ∈ cmds, statements_map.lookup c = none) →
      Engine.commandsLoop exec repos first_repo statements_map cmds groups =
        ([], .ok groups) := by
  intro cmds
  induction cmds with
  | nil => intro groups _; rfl
  | cons c rest ih =>
      intro groups habs
      have hc := habs c (List.mem_cons_self c rest)
      simp only [Engine.commandsLoop, hc]
      exact ih groups (fun c' hc' => habs c' (List.mem_cons_of_mem c hc'))

/-- On a statement map holding only a `select` clause, the command loop is
exactly the `select` fan-out. -/
theorem commandsLoop_single_select {Repo Obj Stmt : Type}
    (exec : Stmt → Repo → List (List Obj) → Except String (List (List Obj)))
    (repos : List Repo) (first_repo : Repo) (s : Stmt) (g : List (List Obj)) :
    Engine.commandsLoop exec repos first_repo [("select", s)]
        Engine.GQL_COMMANDS_IN_ORDER g =
      Engine.selectPhase exec s repos g := by
  have hlk : List.lookup "select" [("select", s)] = some s := rfl
  have hw : List.lookup "where" [("select", s)] = none := rfl
  have hg : List.lookup "group" [("select", s)] = none := rfl
  have ha : List.lookup "aggregation" [("select", s)] = none := rfl
  have hh : List.lookup "having" [("select", s)] = none := rfl
  have ho : List.lookup "order" [("select", s)] = none := rfl
  have hof : List.lookup "offset" [("select", s)] = none := rfl
  have hli : List.lookup "limit" [("select", s)] = none := rfl
  show Engine.commandsLoop exec repos first_repo [("select", s)]
      ("select" :: ["where", "group", "aggregation", "having", "order",
        "offset", "limit"]) g = _
  simp only [Engine.commandsLoop, hlk, hw, hg, ha, hh, ho, hof, hli, if_pos rfl]
  rcases hsp : Engine.selectPhase exec s repos g with ⟨tr, res⟩
  cases res with
  | error e => rfl
  | ok g' => simp

/-- C2 (amended): on a non-empty repository list, a query whose only
clause is `select` executes that clause once per repository, every
execution threading the one shared accumulator — a monadic fold of the
executor over the repositories — and the accumulator is initially empty
(no groups); the group reduction (which panics on a single empty group
when the single-value flag is set) is applied to the fold's result. -/
theorem evaluate_select_shares_initially_empty_accumulator
    {Repo Obj Stmt : Type}
    (exec : Stmt → Repo → List (List Obj) → Except String (List (List Obj)))
    (s : Stmt) (flag : Bool) (hs : List String) (r0 : Repo) (rs : List Repo) :
    Engine.evaluate exec (r0 :: rs) ⟨[("select", s)], flag, hs⟩ =
      (match (r0 :: rs).foldlM (fun g r => exec s r g)
          ([] : List (List Obj)) with
        | .error e => some (.error e)
        | .ok gs => (Engine.reduceGroups gs flag).map
            (fun reduced => .ok ⟨reduced, hs⟩)) := by
  have hfold := selectPhase_eq_foldlM exec s (r0 :: rs) ([] : List (List Obj))
  unfold Engine.evaluate Engine.evaluateWithTrace
  simp only [List.head?]
  rw [commandsLoop_single_select exec (r0 :: rs) r0 s]
  rcases hsp : Engine.selectPhase exec s (r0 :: rs) ([] : List (List Obj)) with
    ⟨tr, res⟩
  rw [hsp] at hfold
  cases res with
  | error e =>
      rw [← hfold]
  | ok gs =>
      rw [← hfold]
      rcases hred : Engine.reduceGroups gs flag with _ | red <;>
        simp [hred]

/-! ### The parser -/

/-- C9 (the claim is wrong about the code): `parse_gql` is **not** total.
On the empty token list, `let first_token = &tokens[position];` indexes out
of bounds and panics (modelled `none`), whatever the per-statement parsers
do; and `parse_group_expression` reads `tokens[*position]` with no bounds
check after the inner expression, so the concrete unclosed input `DO (1`
— where the inner expression parser succeeds consuming up to the end of
the tokens — panics as well instead of producing a diagnostic. -/
theorem parse_gql_panics_on_empty_or_unclosed_input :
    (∀ (Expr : Type) (qp : Parser.QueryParsers Expr),
      Parser.parse_gql qp [] = none) ∧
    (Parser.parse_group_expression
        (fun (context : Parser.ParserContext Unit) (_ : List Parser.Token)
          (_ : Nat) => Except.ok (context, (), 3)) {}
        [⟨.Do, "DO", ⟨0, 2⟩⟩, ⟨.LeftParen, "(", ⟨3, 4⟩⟩, ⟨.Integer, "1", ⟨4, 5⟩⟩]
        1 = none) :=
  ⟨fun _ _ => rfl, rfl⟩

/-! #### Association-list map lemmas -/

theorem beq_false_of_ne {α : Type} [BEq α] [LawfulBEq α] {a b : α} (h : ¬a = b) :
    (a == b) = false :=
  beq_eq_false_iff_ne.mpr h

theorem lookup_hmInsert {β : Type} (m : List (String × β)) (k k' : String) (v : β) :
    List.lookup k' (Parser.hmInsert m k v) =
      if k' = k then some v else List.lookup k' m := by
  induction m with
  | nil =>
      by_cases h : k' = k
      · simp [Parser.hmInsert, List.lookup, h]
      · simp [Parser.hmInsert, List.lookup, h, beq_false_of_ne h]
  | cons p rest ih =>
      obtain ⟨k₀, v₀⟩ := p
      simp only [Parser.hmInsert]
      by_cases h : k₀ = k
      · subst h
        by_cases h' : k' = k₀
        · simp [List.lookup, h']
        · simp [List.lookup, h', beq_false_of_ne h']
      · rw [if_neg h]
        by_cases h' : k' = k₀
        · subst h'
          have hne : ¬k' = k := h
          simp [List.lookup, hne]
        · simp [List.lookup, h', beq_false_of_ne h', ih]

theorem hmContains_hmInsert {β : Type} (m : List (String × β)) (k k' : String) (v : β) :
    Parser.hmContains (Parser.hmInsert m k v) k' =
      ((k' == k) || Parser.hmContains m k') := by
  unfold Parser.hmContains
  rw [lookup_hmInsert]
  by_cases h : k' = k <;> simp [h]

theorem lookup_hmPush (m : List (String × List String)) (k k' x : String) :
    List.lookup k' (Parser.hmPush m k x) =
      if k' = k then (List.lookup k m).map (fun v => v ++ [x])
      else List.lookup k' m := by
  induction m with
  | nil => by_cases h : k' = k <;> simp [Parser.hmPush, List.lookup, h]
  | cons p rest ih =>
      obtain ⟨k₀, v₀⟩ := p
      simp only [Parser.hmPush]
      by_cases h : k₀ = k
      · subst h
        by_cases h' : k' = k₀
        · simp [List.lookup, h']
        · simp [List.lookup, h', beq_false_of_ne h']
      · rw [if_neg h]
        by_cases h' : k' = k₀
        · subst h'
          have hne : ¬k' = k := h
          simp [List.lookup, hne]
        · simp only [List.lookup, ih, beq_false_of_ne h']
          by_cases h'' : k' = k
          · have hk : ¬k = k₀ := fun hh => h' (h''.trans hh)
            simp [h'', List.lookup, beq_false_of_ne hk]
          · simp [h'']

theorem mem_hmInsert {β : Type} (m : List (String × β)) (k : String) (v : β) :
    ∀ p, p ∈ Parser.hmInsert m k v → p = (k, v) ∨ p ∈ m := by
  induction m with
  | nil => intro p hp; simpa [Parser.hmInsert] using hp
  | cons q rest ih =>
      obtain ⟨k₀, v₀⟩ := q
      intro p hp
      by_cases h : k₀ = k
      · subst h
        simp only [Parser.hmInsert, if_pos rfl] at hp
        rcases List.mem_cons.mp hp with h' | h'
        · exact Or.inl h'
        · exact Or.inr (List.mem_cons_of_mem _ h')
      · simp only [Parser.hmInsert, if_neg h] at hp
        rcases List.mem_cons.mp hp with h' | h'
        · exact Or.inr (by simp [h'])
        · rcases ih p h' with h'' | h''
          · exact Or.inl h''
          · exact Or.inr (List.mem_cons_of_mem _ h'')

theorem mem_hmPush (m : List (String × List String)) (k x : String) :
    ∀ p, p ∈ Parser.hmPush m k x →
      ∃ v, (p.1, v) ∈ m ∧ (p.2 = v ∨ p.2 = v ++ [x]) := by
  induction m with
  | nil => intro p hp; simp [Parser.hmPush] at hp
  | cons q rest ih =>
      obtain ⟨k₀, v₀⟩ := q
      intro p hp
      by_cases h : k₀ = k
      · subst h
        simp only [Parser.hmPush, if_pos rfl] at hp
        rcases List.mem_cons.mp hp with h' | h'
        · subst h'
          exact ⟨v₀, by simp⟩
        · exact ⟨p.2, by simp [h']⟩
      · simp only [Parser.hmPush, if_neg h] at hp
        rcases List.mem_cons.mp hp with h' | h'
        · subst h'
          exact ⟨v₀, by simp⟩
        · obtain ⟨v, hv, hor⟩ := ih p h'
          exact ⟨v, List.mem_cons_of_mem _ hv, hor⟩

/-! #### `classify_hidden_selection` lemmas -/

theorem mem_lookup_hmPush (m : List (String × List String)) (k x k' y : String)
    (hy : y ∈ (List.lookup k' m).getD []) :
    y ∈ (List.lookup k' (Parser.hmPush m k x)).getD [] := by
  rw [lookup_hmPush]
  by_cases h : k' = k
  · subst h
    cases hl : List.lookup k' m with
    | none => rw [hl] at hy; simp at hy
    | some v =>
        rw [hl] at hy
        simp only [hl, if_pos rfl, Option.map_some, Option.getD_some]
        exact List.mem_append_left _ (by simpa using hy)
  · simpa [h] using hy

theorem isSome_lookup_hmPush (m : List (String × List String)) (k x k' : String)
    (hk : (List.lookup k' m).isSome = true) :
    (List.lookup k' (Parser.hmPush m k x)).isSome = true := by
  rw [lookup_hmPush]
  by_cases h : k' = k
  · subst h
    cases hl : List.lookup k' m with
    | none => rw [hl] at hk; simp at hk
    | some v => simp [hl]
  · simpa [h] using hk

/-- Memberships of the per-table lists survive the inner table loop of
`classify_hidden_selection` (the loop only appends). -/
theorem classifyLoop_mem_mono (schema : String → List String) (h : String)
    (tables : List String) :
    ∀ (rem : List String) (m : List (String × List String)) (k y : String),
      y ∈ (List.lookup k m).getD [] →
      y ∈ (List.lookup k (Parser.classifyLoop schema h tables rem m)).getD [] := by
  intro rem
  induction rem with
  | nil =>
      intro m k y hy
      match tables with
      | [] => exact hy
      | t0 :: ts =>
          simp only [Parser.classifyLoop]
          cases hm : m.isEmpty with
          | true => simpa [hm] using hy
          | false =>
              simp only [hm, Bool.false_eq_true, if_false]
              exact mem_lookup_hmPush m t0 h k y hy
  | cons t rest ih =>
      intro m k y hy
      simp only [Parser.classifyLoop, List.elem_iff]
      by_cases hc : h ∈ schema t
      · rw [if_pos hc]
        by_cases hmem : h ∈ (List.lookup t m).getD []
        · rw [if_pos hmem]
          exact ih m k y hy
        · rw [if_neg hmem]
          exact mem_lookup_hmPush m t h k y hy
      · rw [if_neg hc]
        exact ih m k y hy

/-- The inner table loop never removes a key from the per-table map. -/
theorem classifyLoop_keys (schema : String → List String) (h : String)
    (tables : List String) :
    ∀ (rem : List String) (m : List (String × List String)) (k : String),
      (List.lookup k m).isSome = true →
      (List.lookup k (Parser.classifyLoop schema h tables rem m)).isSome = true := by
  intro rem
  induction rem with
  | nil =>
      intro m k hk
      match tables with
      | [] => exact hk
      | t0 :: ts =>
          simp only [Parser.classifyLoop]
          cases hm : m.isEmpty with
          | true => simpa [hm] using hk
          | false =>
              simp only [hm, Bool.false_eq_true, if_false]
              exact isSome_lookup_hmPush m t0 h k hk
  | cons t rest ih =>
      intro m k hk
      simp only [Parser.classifyLoop, List.elem_iff]
      by_cases hc : h ∈ schema t
      · rw [if_pos hc]
        by_cases hmem : h ∈ (List.lookup t m).getD []
        · rw [if_pos hmem]
          exact ih m k hk
        · rw [if_neg hmem]
          exact isSome_lookup_hmPush m t h k hk
      · rw [if_neg hc]
        exact ih m k hk

/-- After the inner table loop runs for a hidden selection `h`, `h` is in
the list of the first table whose schema contains it — of the fallback
first table when none does. -/
theorem classifyLoop_places (schema : String → List String) (h : String)
    (t0 : String) (ts : List String) :
    ∀ (rem : List String) (m : List (String × List String)),
      (∀ t ∈ t0 :: ts, (List.lookup t m).isSome = true) →
      (∀ t ∈ rem, t ∈ t0 :: ts) →
      h ∈ (List.lookup
          (match rem.find? (fun t => (schema t).contains h) with
            | some t => t
            | none => t0)
          (Parser.classifyLoop schema h (t0 :: ts) rem m)).getD [] := by
  intro rem
  induction rem with
  | nil =>
      intro m hkeys _
      simp only [List.find?_nil, Parser.classifyLoop]
      have ht0 := hkeys t0 (List.mem_cons_self t0 ts)
      have hm : m.isEmpty = false := by
        cases m with
        | nil => simp [List.lookup] at ht0
        | cons p r => rfl
      simp only [hm, Bool.false_eq_true, if_false]
      rw [lookup_hmPush]
      simp only [if_pos rfl]
      cases hl : List.lookup t0 m with
      | none => rw [hl] at ht0; simp at ht0
      | some v => simp
  | cons t rest ih =>
      intro m hkeys hsub
      by_cases hc : h ∈ schema t
      · have hfind : List.find? (fun t' => (schema t').contains h) (t :: rest) =
            some t := by simp [List.find?_cons, hc]
        rw [hfind]
        simp only [Parser.classifyLoop, List.elem_iff]
        rw [if_pos hc]
        by_cases hmem : h ∈ (List.lookup t m).getD []
        · rw [if_pos hmem]
          exact classifyLoop_mem_mono schema h (t0 :: ts) rest m t h hmem
        · rw [if_neg hmem]
          rw [lookup_hmPush]
          simp only [if_pos rfl]
          have ht := hkeys t (hsub t (List.mem_cons_self t rest))
          cases hl : List.lookup t m with
          | none => rw [hl] at ht; simp at ht
          | some v => simp
      · have hfind : List.find? (fun t' => (schema t').contains h) (t :: rest) =
            List.find? (fun t' => (schema t').contains h) rest := by
          simp [List.find?_cons, hc]
        rw [hfind]
        simp only [Parser.classifyLoop, List.elem_iff]
        rw [if_neg hc]
        exact ih m hkeys (fun t' ht' => hsub t' (List.mem_cons_of_mem t ht'))

/-- Memberships survive the whole per-hidden-selection fold. -/
theorem classify_fold_mono (schema : String → List String) (tables : List String) :
    ∀ (hid : List String) (m : List (String × List String)) (k y : String),
      y ∈ (List.lookup k m).getD [] →
      y ∈ (List.lookup k (hid.foldl
        (fun m' h' => Parser.classifyLoop schema h' tables tables m') m)).getD [] := by
  intro hid
  induction hid with
  | nil => intro m k y hy; exact hy
  | cons h0 rest ih =>
      intro m k y hy
      simp only [List.foldl_cons]
      exact ih _ k y (classifyLoop_mem_mono schema h0 tables tables m k y hy)

/-- Keys survive the whole per-hidden-selection fold. -/
theorem classify_fold_keys (schema : String → List String) (tables : List String) :
    ∀ (hid : List String) (m : List (String × List String)) (k : String),
      (List.lookup k m).isSome = true →
      (List.lookup k (hid.foldl
        (fun m' h' => Parser.classifyLoop schema h' tables tables m') m)).isSome = true := by
  intro hid
  induction hid with
  | nil => intro m k hk; exact hk
  | cons h0 rest ih =>
      intro m k hk
      simp only [List.foldl_cons]
      exact ih _ k (classifyLoop_keys schema h0 tables tables m k hk)

/-- Every table of `tables` is a key of the initial per-table map. -/
theorem classify_init_keys (tables : List String) :
    ∀ t ∈ tables,
      (List.lookup t (tables.foldl
        (fun m table => Parser.hmInsert m table ([] : List String)) [])).isSome = true := by
  suffices H : ∀ (rest : List String) (m : List (String × List String)) (t : String),
      (t ∈ rest ∨ (List.lookup t m).isSome = true) →
      (List.lookup t (rest.foldl (fun m' table => Parser.hmInsert m' table ([] : List String)) m)).isSome
        = true by
    intro t ht
    exact H tables [] t (Or.inl ht)
  intro rest
  induction rest with
  | nil =>
      intro m t h
      rcases h with h | h
      · simp at h
      · exact h
  | cons t' rest' ih =>
      intro m t h
      simp only [List.foldl_cons]
      apply ih
      rcases h with h | h
      · rcases List.mem_cons.mp h with rfl | h''
        · right; rw [lookup_hmInsert]; simp
        · exact Or.inl h''
      · right
        rw [lookup_hmInsert]
        by_cases e : t = t' <;> simp [e, h]

/-- Every per-table list of the initial map is empty. -/
theorem classify_init_vals (tables : List String) :
    ∀ t cols, (t, cols) ∈ (tables.foldl
      (fun m table => Parser.hmInsert m table ([] : List String)) []) → cols = [] := by
  suffices H : ∀ (rest : List String) (m : List (String × List String)),
      (∀ t cols, (t, cols) ∈ m → cols = []) →
      ∀ t cols,
        (t, cols) ∈ rest.foldl (fun m' table => Parser.hmInsert m' table ([] : List String)) m →
        cols = [] by
    intro t cols h
    exact H tables [] (by simp) t cols h
  intro rest
  induction rest with
  | nil => intro m hm t cols h; exact hm t cols h
  | cons t' rest' ih =>
      intro m hm t cols h
      simp only [List.foldl_cons] at h
      refine ih _ ?_ t cols h
      intro t₁ cols₁ h₁
      rcases mem_hmInsert m t' [] (t₁, cols₁) h₁ with h₂ | h₂
      · exact congrArg Prod.snd h₂
      · exact hm t₁ cols₁ h₂

/-- Entries after the inner table loop come from entries before it, at most
with the processed hidden selection appended. -/
theorem classifyLoop_mem_src (schema : String → List String) (h : String)
    (tables : List String) :
    ∀ (rem : List String) (m : List (String × List String)) (t : String)
      (cols : List String),
      (t, cols) ∈ Parser.classifyLoop schema h tables rem m →
      ∃ cols₀, (t, cols₀) ∈ m ∧ (cols = cols₀ ∨ cols = cols₀ ++ [h]) := by
  intro rem
  induction rem with
  | nil =>
      intro m t cols hmem
      match tables with
      | [] => exact ⟨cols, hmem, Or.inl rfl⟩
      | t0 :: ts =>
          simp only [Parser.classifyLoop] at hmem
          cases hm : m.isEmpty with
          | true => rw [hm] at hmem; simp at hmem; exact ⟨cols, hmem, Or.inl rfl⟩
          | false =>
              rw [hm] at hmem
              simp only [Bool.false_eq_true, if_false] at hmem
              obtain ⟨v, hv, hor⟩ := mem_hmPush m t0 h (t, cols) hmem
              exact ⟨v, hv, hor⟩
  | cons t' rest ih =>
      intro m t cols hmem
      simp only [Parser.classifyLoop, List.elem_iff] at hmem
      by_cases hc : h ∈ schema t'
      · rw [if_pos hc] at hmem
        by_cases hmem' : h ∈ (List.lookup t' m).getD []
        · rw [if_pos hmem'] at hmem
          exact ih m t cols hmem
        · rw [if_neg hmem'] at hmem
          obtain ⟨v, hv, hor⟩ := mem_hmPush m t' h (t, cols) hmem
          exact ⟨v, hv, hor⟩
      · rw [if_neg hc] at hmem
        exact ih m t cols hmem

/-- `classify_hidden_selection` places every hidden selection under its
attributing table: the first selected table whose schema contains it,
otherwise the first selected table. -/
theorem classify_places (schema : String → List String) (t0 : String)
    (ts : List String) (hidden : List String) :
    ∀ h ∈ hidden,
      h ∈ (List.lookup (Parser.first_owning_table schema (t0 :: ts) h)
        (Parser.classify_hidden_selection schema (t0 :: ts) hidden)).getD [] := by
  suffices H : ∀ (hid : List String) (m : List (String × List String)),
      (∀ t ∈ t0 :: ts, (List.lookup t m).isSome = true) →
      ∀ h ∈ hid,
        h ∈ (List.lookup (Parser.first_owning_table schema (t0 :: ts) h)
          (hid.foldl
            (fun m' h' => Parser.classifyLoop schema h' (t0 :: ts) (t0 :: ts) m')
            m)).getD [] by
    intro h hh
    exact H hidden _ (classify_init_keys (t0 :: ts)) h hh
  intro hid
  induction hid with
  | nil => intro m _ h hh; simp at hh
  | cons h0 rest ih =>
      intro m hkeys h hh
      simp only [List.foldl_cons]
      rcases List.mem_cons.mp hh with rfl | hh'
      · have hpl := classifyLoop_places schema h t0 ts (t0 :: ts) m hkeys
          (fun t ht => ht)
        exact classify_fold_mono schema (t0 :: ts) rest _ _ h hpl
      · exact ih (Parser.classifyLoop schema h0 (t0 :: ts) (t0 :: ts) m)
          (fun t ht => classifyLoop_keys schema h0 (t0 :: ts) (t0 :: ts) m t
            (hkeys t ht)) h hh'

/-- Every column stored by `classify_hidden_selection` is one of the hidden
selections it was given. -/
theorem classify_vals (schema : String → List String) (tables : List String)
    (hidden : List String) :
    ∀ t cols c, (t, cols) ∈ Parser.classify_hidden_selection schema tables hidden →
      c ∈ cols → c ∈ hidden := by
  suffices H : ∀ (hid : List String), (∀ x ∈ hid, x ∈ hidden) →
      ∀ (m : List (String × List String)),
        (∀ t cols c, (t, cols) ∈ m → c ∈ cols → c ∈ hidden) →
        ∀ t cols c,
          (t, cols) ∈ hid.foldl
            (fun m' h' => Parser.classifyLoop schema h' tables tables m') m →
          c ∈ cols → c ∈ hidden by
    intro t cols c hm hc
    refine H hidden (fun x hx => hx) _ ?_ t cols c hm hc
    intro t₁ cols₁ c₁ h₁ hc₁
    rw [classify_init_vals tables t₁ cols₁ h₁] at hc₁
    simp at hc₁
  intro hid
  induction hid with
  | nil =>
      intro _ m hm t cols c h hc
      exact hm t cols c h hc
  | cons h0 rest ih =>
      intro hsub m hm t cols c h hc
      simp only [List.foldl_cons] at h
      refine ih (fun x hx => hsub x (List.mem_cons_of_mem h0 hx)) _ ?_ t cols c h hc
      intro t₁ cols₁ c₁ h₁ hc₁
      obtain ⟨cols₀, h₀, hor⟩ :=
        classifyLoop_mem_src schema h0 tables tables m t₁ cols₁ h₁
      rcases hor with he | he
      · rw [he] at hc₁
        exact hm t₁ cols₀ c₁ h₀ hc₁
      · rw [he] at hc₁
        rcases List.mem_append.mp hc₁ with hcl | hcl
        · exact hm t₁ cols₀ c₁ h₀ hcl
        · have hch : c₁ = h0 := by simpa using hcl
          rw [hch]
          exact hsub h0 (List.mem_cons_self h0 rest)

/-- C4: in a successfully parsed `SELECT` query (the clause loop returning
`context`, and `parse_select_query` returning `q`), no selected field
appears among the hidden selections stored on the query, and every hidden
selection of the context that is not a selected field is placed under the
first selected table whose schema columns contain it, otherwise under the
first selected table. -/
theorem parse_select_query_hidden_selection_classification {Expr : Type}
    (schema : String → List String) (ps : Parser.SubParsers Expr)
    (tcps : List String → List String → List Parser.Location →
      Except Parser.Diagnostic Unit)
    (fuel : Nat) (tokens : List Parser.Token) (position : Nat)
    (context : Parser.ParserContext Expr)
    (statements : List (String × Parser.Statement Expr)) (posL : Nat)
    (q : Parser.GQLQuery Expr) (pos' : Nat)
    (hloop : Parser.selectLoop ps tokens fuel {} [] position =
      .ok (context, statements, posL))
    (hq : Parser.parse_select_query schema ps tcps fuel tokens position =
      .ok (.select q, pos')) :
    (∀ name ∈ context.selected_fields,
      ∀ t cols, (t, cols) ∈ q.hidden_selections → name ∉ cols) ∧
    (∀ h ∈ context.hidden_selections, h ∉ context.selected_fields →
      ∀ t0 ts, context.selected_tables = t0 :: ts →
        h ∈ (List.lookup (Parser.first_owning_table schema context.selected_tables h)
          q.hidden_selections).getD []) := by
  have hqh : q.hidden_selections =
      Parser.classify_hidden_selection schema context.selected_tables
        (context.hidden_selections.filter
          (fun n => !context.selected_fields.contains n)) := by
    unfold Parser.parse_select_query at hq
    rw [hloop] at hq
    simp only [] at hq
    cases htc : tcps context.selected_tables context.projection_names
        context.projection_locations with
    | error d => rw [htc] at hq; by_cases ha : context.aggregations.isEmpty <;>
        simp [ha] at hq
    | ok u =>
        rw [htc] at hq
        by_cases ha : context.aggregations.isEmpty
        · simp only [ha, if_true] at hq
          cases hq
          rfl
        · simp only [ha, Bool.false_eq_true, if_false] at hq
          cases hq
          rfl
  constructor
  · intro name hname t cols hmem hcols
    have hin := classify_vals schema context.selected_tables _ t cols name
      (by rw [hqh] at hmem; exact hmem) hcols
    have := List.of_mem_filter hin
    simp only [Bool.not_eq_eq_eq_not, Bool.not_true, List.elem_iff] at this
    exact absurd hname (by simpa using this)
  · intro h hh hnf t0 ts htab
    have hfil : h ∈ context.hidden_selections.filter
        (fun n => !context.selected_fields.contains n) := by
      refine List.mem_filter.mpr ⟨hh, ?_⟩
      simp only [Bool.not_eq_eq_eq_not, Bool.not_true, List.elem_iff]
      simpa using hnf
    rw [hqh, htab]
    exact classify_places schema t0 ts _ h hfil

/-- Witness for C4: one table `t1` with column `b`, selected field `a`,
hidden selections `a, b` — after parsing, `a` (a selected field) is not
among the hidden selections, while `b` is attributed to `t1`. -/
theorem parse_select_query_hidden_selection_classification_witness :
    ("a" ∉ (["b"] : List String)) ∧
    "b" ∈ (List.lookup
        (Parser.first_owning_table
          (fun t => if t = "t1" then ["b"] else []) ["t1"] "b")
        [("t1", ["b"])]).getD [] := by
  have h := parse_select_query_hidden_selection_classification
    (fun t => if t = "t1" then ["b"] else [])
    (⟨fun c _ p => .ok ({ c with
        selected_fields := ["a"]
        hidden_selections := ["a", "b"]
        selected_tables := ["t1"] }, .select (), p + 1),
      fun _ _ _ => .error (Parser.Diagnostic.error "unused"),
      fun _ _ _ => .error (Parser.Diagnostic.error "unused"),
      fun _ _ _ => .error (Parser.Diagnostic.error "unused"),
      fun _ _ _ => .error (Parser.Diagnostic.error "unused")⟩ :
      Parser.SubParsers Unit)
    (fun _ _ _ => .ok ()) 2 [⟨.Select, "SELECT", ⟨0, 6⟩⟩] 0
    ⟨[], ["a"], ["a", "b"], ["t1"], [], [], [], true, false, false⟩
    [("select", .select ())] 1
    ⟨[("select", .select ())], false, false, [("t1", ["b"])], []⟩ 1
    rfl rfl
  exact ⟨h.1 "a" (by simp) "t1" ["b"] (by simp),
    h.2 "b" (by simp) (by simp) "t1" [] rfl⟩

set_option maxHeartbeats 1000000 in
/-- C5: parsing `LIMIT n, m` stores the same two clause entries as
`LIMIT n OFFSET m` — a limit statement with count `n` and an offset
statement with count `m` — and when an offset clause is already in the
statement map, the `LIMIT n, m` form returns the duplicate-`OFFSET`
diagnostic instead. -/
theorem limit_comma_offset_sugar {Expr : Type} (ps : Parser.SubParsers Expr)
    (context : Parser.ParserContext Expr)
    (statements : List (String × Parser.Statement Expr))
    (n m : Nat) (s₁ s₂ : String)
    (loc₁ loc₂ loc₃ loc₄ : Parser.Location) (f : Nat)
    (hn : Parser.parseUsize s₁ = .ok n) (hm : Parser.parseUsize s₂ = .ok m)
    (hlim : Parser.hmContains statements "limit" = false)
    (hoff : Parser.hmContains statements "offset" = false) :
    (Parser.selectLoop ps [⟨.Limit, "LIMIT", loc₁⟩, ⟨.Integer, s₁, loc₂⟩,
        ⟨.Comma, ",", loc₃⟩, ⟨.Integer, s₂, loc₄⟩] (f + 3) context statements 0 =
      .ok (context,
        Parser.hmInsert (Parser.hmInsert statements "limit" (.limit n))
          "offset" (.offset m), 4)) ∧
    (Parser.selectLoop ps [⟨.Limit, "LIMIT", loc₁⟩, ⟨.Integer, s₁, loc₂⟩,
        ⟨.Offset, "OFFSET", loc₃⟩, ⟨.Integer, s₂, loc₄⟩] (f + 3) context statements 0 =
      .ok (context,
        Parser.hmInsert (Parser.hmInsert statements "limit" (.limit n))
          "offset" (.offset m), 4)) ∧
    (∀ statements₂ : List (String × Parser.Statement Expr),
      Parser.hmContains statements₂ "limit" = false →
      Parser.hmContains statements₂ "offset" = true →
      Parser.selectLoop ps [⟨.Limit, "LIMIT", loc₁⟩, ⟨.Integer, s₁, loc₂⟩,
          ⟨.Comma, ",", loc₃⟩, ⟨.Integer, s₂, loc₄⟩] (f + 3) context statements₂ 0 =
        .error ((((Parser.Diagnostic.error
          "You already used `OFFSET` statement").add_note
          "Can't use more than one `OFFSET` statement in the same query").with_location
          loc₁).as_boxed)) := by
  refine ⟨?_, ?_, ?_⟩
  · simp only [Parser.selectLoop, Parser.parse_limit_statement, List.get?,
      hn, hm, hlim, hmContains_hmInsert, hoff]
    simp +decide [hm]
  · simp only [Parser.selectLoop, Parser.parse_limit_statement,
      Parser.parse_offset_statement, List.get?, hn, hm, hlim,
      hmContains_hmInsert, hoff]
    simp +decide [hm]
  · intro statements₂ hlim₂ hoff₂
    simp only [Parser.selectLoop, Parser.parse_limit_statement, List.get?,
      hn, hlim₂, hmContains_hmInsert, hoff₂]
    simp +decide

/-- Witness for C5 at `LIMIT 1, 2` from an empty clause map, and the
duplicate case from a map already holding an offset clause. -/
theorem limit_comma_offset_sugar_witness :
    (Parser.selectLoop
        (⟨fun _ _ _ => .error (Parser.Diagnostic.error "unused"),
          fun _ _ _ => .error (Parser.Diagnostic.error "unused"),
          fun _ _ _ => .error (Parser.Diagnostic.error "unused"),
          fun _ _ _ => .error (Parser.Diagnostic.error "unused"),
          fun _ _ _ => .error (Parser.Diagnostic.error "unused")⟩ :
          Parser.SubParsers Unit)
        [⟨.Limit, "LIMIT", ⟨0, 5⟩⟩, ⟨.Integer, "1", ⟨6, 7⟩⟩,
          ⟨.Comma, ",", ⟨7, 8⟩⟩, ⟨.Integer, "2", ⟨9, 10⟩⟩] 3 {} [] 0 =
      .ok ({}, [("limit", .limit 1), ("offset", .offset 2)], 4)) ∧
    (Parser.selectLoop
        (⟨fun _ _ _ => .error (Parser.Diagnostic.error "unused"),
          fun _ _ _ => .error (Parser.Diagnostic.error "unused"),
          fun _ _ _ => .error (Parser.Diagnostic.error "unused"),
          fun _ _ _ => .error (Parser.Diagnostic.error "unused"),
          fun _ _ _ => .error (Parser.Diagnostic.error "unused")⟩ :
          Parser.SubParsers Unit)
        [⟨.Limit, "LIMIT", ⟨0, 5⟩⟩, ⟨.Integer, "1", ⟨6, 7⟩⟩,
          ⟨.Comma, ",", ⟨7, 8⟩⟩, ⟨.Integer, "2", ⟨9, 10⟩⟩] 3 {}
        [("offset", .offset 9)] 0 =
      .error ((((Parser.Diagnostic.error
        "You already used `OFFSET` statement").add_note
        "Can't use more than one `OFFSET` statement in the same query").with_location
        ⟨0, 5⟩).as_boxed)) := by
  have h := limit_comma_offset_sugar
    (⟨fun _ _ _ => .error (Parser.Diagnostic.error "unused"),
      fun _ _ _ => .error (Parser.Diagnostic.error "unused"),
      fun _ _ _ => .error (Parser.Diagnostic.error "unused"),
      fun _ _ _ => .error (Parser.Diagnostic.error "unused"),
      fun _ _ _ => .error (Parser.Diagnostic.error "unused")⟩ :
      Parser.SubParsers Unit)
    {} [] 1 2 "1" "2" ⟨0, 5⟩ ⟨6, 7⟩ ⟨7, 8⟩ ⟨9, 10⟩ 0 rfl rfl rfl rfl
  exact ⟨h.1, h.2.2 [("offset", .offset 9)] rfl rfl⟩

/-- Inserting under any key other than `"having"` preserves the
`having`-implies-`group` invariant of the clause map. -/
theorem having_group_inv_insert_other {β : Type}
    {m : List (String × β)} {k : String} {v : β}
    (hne : ("having" == k) = false)
    (hinv : Parser.hmContains m "having" = true →
      Parser.hmContains m "group" = true) :
    Parser.hmContains (Parser.hmInsert m k v) "having" = true →
    Parser.hmContains (Parser.hmInsert m k v) "group" = true := by
  rw [hmContains_hmInsert, hmContains_hmInsert, hne, Bool.false_or]
  intro h
  rw [hinv h, Bool.or_true]

/-- Inserting the `"group"` key makes the invariant hold outright. -/
theorem having_group_inv_insert_group {β : Type}
    {m : List (String × β)} {v : β} :
    Parser.hmContains (Parser.hmInsert m "group" v) "having" = true →
    Parser.hmContains (Parser.hmInsert m "group" v) "group" = true := by
  rw [hmContains_hmInsert m "group" "group" v]
  intro _
  simp

/-- Inserting `"having"` preserves the invariant when `"group"` is already
present — the only situation in which the loop inserts it. -/
theorem having_group_inv_insert_having {β : Type}
    {m : List (String × β)} {v : β}
    (hgrp : Parser.hmContains m "group" = true) :
    Parser.hmContains (Parser.hmInsert m "having" v) "having" = true →
    Parser.hmContains (Parser.hmInsert m "having" v) "group" = true := by
  rw [hmContains_hmInsert m "having" "group" v]
  intro _
  rw [hgrp, Bool.or_true]

/-- The clause loop preserves the `having`-implies-`group` invariant of the
statement map: the `HAVING` arm errors unless `"group"` is present, and no
arm ever removes a key. -/
theorem selectLoop_having_group {Expr : Type} (ps : Parser.SubParsers Expr)
    (tokens : List Parser.Token) :
    ∀ (fuel : Nat) (context : Parser.ParserContext Expr)
      (statements : List (String × Parser.Statement Expr)) (position : Nat)
      (context' : Parser.ParserContext Expr)
      (statements' : List (String × Parser.Statement Expr)) (position' : Nat),
      Parser.selectLoop ps tokens fuel context statements position =
        .ok (context', statements', position') →
      (Parser.hmContains statements "having" = true →
        Parser.hmContains statements "group" = true) →
      (Parser.hmContains statements' "having" = true →
        Parser.hmContains statements' "group" = true) := by
  intro fuel
  induction fuel with
  | zero =>
      intro ctx stmts pos ctx' stmts' pos' h _
      simp [Parser.selectLoop] at h
  | succ f ih =>
      intro ctx stmts pos ctx' stmts' pos' h hinv
      rw [Parser.selectLoop] at h
      cases hget : tokens.get? pos with
      | none =>
          rw [hget] at h
          simp only [Except.ok.injEq, Prod.mk.injEq] at h
          obtain ⟨-, h2, -⟩ := h
          rw [← h2]
          exact hinv
      | some token =>
          obtain ⟨kind, lit, locT⟩ := token
          cases kind <;> simp only [hget] at h <;>
            try (simp only [Except.ok.injEq, Prod.mk.injEq] at h
                 obtain ⟨-, h2, -⟩ := h
                 rw [← h2]
                 exact hinv)
          case Select =>
            repeat'
              first
              | exact Except.noConfusion h
              | exact ih _ _ _ _ _ _ h (having_group_inv_insert_other rfl hinv)
              | split at h
          case Where =>
            repeat'
              first
              | exact Except.noConfusion h
              | exact ih _ _ _ _ _ _ h (having_group_inv_insert_other rfl hinv)
              | split at h
          case Group =>
            repeat'
              first
              | exact Except.noConfusion h
              | exact ih _ _ _ _ _ _ h having_group_inv_insert_group
              | split at h
          case Having =>
            split at h
            · exact Except.noConfusion h
            · split at h
              · exact Except.noConfusion h
              · rename_i hg
                have hgrp : Parser.hmContains stmts "group" = true := by
                  simpa using hg
                split at h
                · exact Except.noConfusion h
                · exact ih _ _ _ _ _ _ h (having_group_inv_insert_having hgrp)
          case Limit =>
            repeat'
              first
              | exact Except.noConfusion h
              | exact ih _ _ _ _ _ _ h (having_group_inv_insert_other rfl
                  (having_group_inv_insert_other rfl hinv))
              | exact ih _ _ _ _ _ _ h (having_group_inv_insert_other rfl hinv)
              | split at h
          case Offset =>
            repeat'
              first
              | exact Except.noConfusion h
              | exact ih _ _ _ _ _ _ h (having_group_inv_insert_other rfl hinv)
              | split at h
          case Order =>
            repeat'
              first
              | exact Except.noConfusion h
              | exact ih _ _ _ _ _ _ h (having_group_inv_insert_other rfl hinv)
              | split at h
          case Not => exact Except.noConfusion h

/-- C6: a `HAVING` token with no `"group"` key stored yet makes the clause
loop return the dedicated diagnostic, and consequently in every
successfully parsed `SELECT` query whose statement map holds the
`"having"` key, the `"group"` key is present as well. -/
theorem having_key_requires_group_key {Expr : Type}
    (schema : String → List String) (ps : Parser.SubParsers Expr)
    (tcps : List String → List String → List Parser.Location →
      Except Parser.Diagnostic Unit)
    (fuel : Nat) (tokens : List Parser.Token) (position : Nat)
    (gq : Parser.GQLQuery Expr) (pos' : Nat)
    (hq : Parser.parse_select_query schema ps tcps fuel tokens position =
      .ok (.select gq, pos')) :
    (Parser.hmContains gq.statements "having" = true →
      Parser.hmContains gq.statements "group" = true) ∧
    (∀ (context : Parser.ParserContext Expr)
      (statements : List (String × Parser.Statement Expr)) (pos f : Nat)
      (token : Parser.Token),
      tokens.get? pos = some token → token.kind = .Having →
      Parser.hmContains statements "having" = false →
      Parser.hmContains statements "group" = false →
      Parser.selectLoop ps tokens (f + 1) context statements pos =
        .error ((((Parser.Diagnostic.error
          "`HAVING` must be used after `GROUP BY` statement").add_note
          "`HAVING` statement must be used in a query that has `GROUP BY` statement").with_location
          token.location).as_boxed)) := by
  constructor
  · unfold Parser.parse_select_query at hq
    cases hloop : Parser.selectLoop ps tokens fuel {} [] position with
    | error d => rw [hloop] at hq; simp at hq
    | ok res =>
        obtain ⟨c, st, p⟩ := res
        rw [hloop] at hq
        simp only [] at hq
        have hinv0 : Parser.hmContains ([] : List (String × Parser.Statement Expr))
            "having" = true →
            Parser.hmContains ([] : List (String × Parser.Statement Expr))
            "group" = true := by
          intro habs
          simp [Parser.hmContains, List.lookup] at habs
        have hinv := selectLoop_having_group ps tokens fuel {} [] position
          c st p hloop hinv0
        cases htc : tcps c.selected_tables c.projection_names
            c.projection_locations with
        | error d =>
            rw [htc] at hq
            by_cases ha : c.aggregations.isEmpty <;> simp [ha] at hq
        | ok u =>
            rw [htc] at hq
            by_cases ha : c.aggregations.isEmpty
            · simp only [ha, if_true] at hq
              cases hq
              exact hinv
            · simp only [ha, Bool.false_eq_true, if_false] at hq
              cases hq
              exact having_group_inv_insert_other rfl hinv
  · intro context statements pos f token hget hkind hhav hgrp
    obtain ⟨kind, lit, locT⟩ := token
    have hk : kind = .Having := hkind
    subst hk
    simp only [Parser.selectLoop, hget, hhav, hgrp]
    simp

/-- Witness for C6: parsing `GROUP BY … HAVING …` (with trivial clause
sub-parsers) stores both keys, and starting at the `HAVING` token with an
empty clause map errors with the dedicated diagnostic. -/
theorem having_key_requires_group_key_witness :
    (Parser.hmContains [("group", Parser.Statement.groupBy ()),
        ("having", Parser.Statement.having ())] "group" = true) ∧
    (Parser.selectLoop
        (⟨fun _ _ _ => .error (Parser.Diagnostic.error "unused"),
          fun _ _ _ => .error (Parser.Diagnostic.error "unused"),
          fun c _ p => .ok (c, .groupBy (), p + 1),
          fun c _ p => .ok (c, .having (), p + 1),
          fun _ _ _ => .error (Parser.Diagnostic.error "unused")⟩ :
          Parser.SubParsers Unit)
        [⟨.Group, "GROUP", ⟨0, 5⟩⟩, ⟨.Having, "HAVING", ⟨6, 12⟩⟩] 1 {} [] 1 =
      .error ((((Parser.Diagnostic.error
        "`HAVING` must be used after `GROUP BY` statement").add_note
        "`HAVING` statement must be used in a query that has `GROUP BY` statement").with_location
        ⟨6, 12⟩).as_boxed)) := by
  have h := having_key_requires_group_key
    (fun _ => []) (⟨fun _ _ _ => .error (Parser.Diagnostic.error "unused"),
      fun _ _ _ => .error (Parser.Diagnostic.error "unused"),
      fun c _ p => .ok (c, .groupBy (), p + 1),
      fun c _ p => .ok (c, .having (), p + 1),
      fun _ _ _ => .error (Parser.Diagnostic.error "unused")⟩ :
      Parser.SubParsers Unit)
    (fun _ _ _ => .ok ()) 3
    [⟨.Group, "GROUP", ⟨0, 5⟩⟩, ⟨.Having, "HAVING", ⟨6, 12⟩⟩] 0
    ⟨[("group", .groupBy ()), ("having", .having ())], false, false, [], []⟩ 2
    rfl
  exact ⟨h.1 rfl,
    h.2 {} [] 1 0 ⟨.Having, "HAVING", ⟨6, 12⟩⟩ rfl rfl rfl rfl⟩

end GQL
